import Mathlib

/-!
# Verification of the CNPJ processor pipeline (mbezerra/cnpj-processor)

This file gives a shallow embedding, in Lean 4, of the query/filter/export
pipeline of the CNPJ processor repository, most importantly the
ultra-optimized variant (`src/cnpj_processor/cnpj_processor_ultra_optimized.py`),
together with the row post-processing helpers of the three processor variants
(`cnpj_processor.py`, `cnpj_processor_optimized.py`,
`cnpj_processor_ultra_optimized.py`).

Modelling conventions:
* a database snapshot is a `List Row` of the joined establishment rows;
  `cnpj_part1`/`part2`/`part3` are the string columns produced by the loader
  scripts (the loader zero-fills `cnpj_part1` to 8 characters with
  `str.zfill(8)`, see `scripts/cnpj_estabelecimentos.py`);
* SQL string comparison (`ORDER BY est.cnpj_part1`,
  `est.cnpj_part1 > '...'`) is modelled by character-wise lexicographic
  comparison `strLt`, and `ORDER BY` by a stable insertion sort;
* the `while` loops of the run entry points are modelled with an explicit
  fuel argument instantiated with the requested limit; every loop iteration
  that does not stop emits at least one row, so `limit` iterations always
  suffice (`run_offset_loop_fuel_congr` below proves fuel-independence);
* wall-clock durations (`batch_time`, the partner-lookup time) are external
  inputs, modelled as oracles `Nat → ℚ` indexed by the batch number.
-/

/-- Character-wise lexicographic comparison of char lists: the model of
MySQL string comparison used by `ORDER BY est.cnpj_part1` and by the
cursor predicate `est.cnpj_part1 > '<last_cnpj>'`. -/
def listLtCh : List Char → List Char → Bool
  | [], [] => false
  | [], _ :: _ => true
  | _ :: _, [] => false
  | a :: as, b :: bs => if a < b then true else if b < a then false else listLtCh as bs

/-- Lexicographic comparison of strings (model of SQL `<` on text columns). -/
def strLt (a b : String) : Bool := listLtCh a.data b.data

theorem listLtCh_irrefl (l : List Char) : listLtCh l l = false := by
  induction l with
  | nil => rfl
  | cons a as ih => simp [listLtCh, lt_irrefl, ih]

theorem listLtCh_asymm {a b : List Char} (h : listLtCh a b = true) :
    listLtCh b a = false := by
  induction a generalizing b with
  | nil =>
    cases b with
    | nil => simp [listLtCh]
    | cons y ys => simp [listLtCh]
  | cons x xs ih =>
    cases b with
    | nil => simp [listLtCh] at h
    | cons y ys =>
      simp only [listLtCh] at h ⊢
      by_cases hxy : x < y
      · simp only [hxy, if_true] at h ⊢
        simp [asymm hxy, hxy]
      · by_cases hyx : y < x
        · simp [hxy, hyx] at h
        · simp only [hxy, hyx, if_false, if_true] at h ⊢
          exact ih h

theorem listLtCh_eq_of_not_lt {a b : List Char} (hab : listLtCh a b = false)
    (hba : listLtCh b a = false) : a = b := by
  induction a generalizing b with
  | nil =>
    cases b with
    | nil => rfl
    | cons y ys => simp [listLtCh] at hab
  | cons x xs ih =>
    cases b with
    | nil => simp [listLtCh] at hba
    | cons y ys =>
      simp only [listLtCh] at hab hba
      by_cases hxy : x < y
      · simp [hxy] at hab
      · by_cases hyx : y < x
        · simp [hxy, hyx] at hba
        · have hx : x = y := le_antisymm (not_lt.mp hyx) (not_lt.mp hxy)
          subst hx
          simp only [lt_irrefl, if_false] at hab hba
          rw [ih hab hba]

theorem listLtCh_trans {a b c : List Char} (hab : listLtCh a b = true)
    (hbc : listLtCh b c = true) : listLtCh a c = true := by
  induction a generalizing b c with
  | nil =>
    cases c with
    | nil =>
      cases b with
      | nil => simp [listLtCh] at hab
      | cons y ys => simp [listLtCh] at hbc
    | cons z zs => simp [listLtCh]
  | cons x xs ih =>
    cases b with
    | nil => simp [listLtCh] at hab
    | cons y ys =>
      cases c with
      | nil => simp [listLtCh] at hbc
      | cons z zs =>
        simp only [listLtCh] at hab hbc ⊢
        by_cases hxy : x < y
        · by_cases hyz : y < z
          · simp [lt_trans hxy hyz]
          · by_cases hzy : z < y
            · simp [hyz, hzy] at hbc
            · have : y = z := le_antisymm (not_lt.mp hzy) (not_lt.mp hyz)
              subst this
              simp [hxy]
        · by_cases hyx : y < x
          · simp [hxy, hyx] at hab
          · have : x = y := le_antisymm (not_lt.mp hyx) (not_lt.mp hxy)
            subst this
            simp only [lt_irrefl, if_false] at hab
            by_cases hyz : x < z
            · simp [hyz]
            · by_cases hzy : z < x
              · simp [hyz, hzy] at hbc
              · have : x = z := le_antisymm (not_lt.mp hzy) (not_lt.mp hyz)
                subst this
                simp only [lt_irrefl, if_false] at hbc ⊢
                exact ih hab hbc

theorem listLtCh_of_lt_of_not_lt {a b c : List Char} (hab : listLtCh a b = true)
    (hcb : listLtCh c b = false) : listLtCh a c = true := by
  by_cases hbc : listLtCh b c = true
  · exact listLtCh_trans hab hbc
  · have : b = c := listLtCh_eq_of_not_lt (by simpa using hbc) hcb
    subst this
    exact hab

/-- On equal-length prefixes, extending the left-hand string does not change
the comparison: for `a.length = b.length` and `t ≠ []`,
`(b ++ t) < a ↔ b < a`.  This is the reason the cursor predicate
`cnpj_part1 > last_cnpj` (an 8-character column compared against a
14-character cursor) excludes every row whose root equals the cursor's root. -/
theorem listLtCh_append_left {a b : List Char} (t : List Char)
    (h : a.length = b.length) (ht : t ≠ []) :
    listLtCh (b ++ t) a = listLtCh b a := by
  induction a generalizing b with
  | nil =>
    cases b with
    | nil =>
      cases t with
      | nil => exact absurd rfl ht
      | cons c cs => simp [listLtCh]
    | cons y ys => simp at h
  | cons x xs ih =>
    cases b with
    | nil => simp at h
    | cons y ys =>
      simp only [List.cons_append, listLtCh]
      by_cases hyx : y < x
      · simp [hyx]
      · by_cases hxy : x < y
        · simp [hyx, hxy]
        · simp only [hyx, hxy, if_false]
          exact ih (by simpa using h)

/-! ## Data model

One `Row` is one row of the joined result of
`cnpj_estabelecimentos INNER JOIN cnpj_empresas LEFT JOIN cnpj_simples`,
restricted to the columns that the filter compiler and the pager inspect.
The loader scripts store `cnpj_part1`, `cnpj_part2` and `cnpj_part3` as
zero-filled strings (`zfill(8)`, `zfill(4)`, `zfill(2)`). -/

structure Row where
  part1 : String
  part2 : String
  part3 : String
  uf : String
  situacao : Int
  municipio : Int
  cnae : String
deriving DecidableEq, Repr

/-- The filter configuration dictionary, restricted to the keys that
`apply_filters_minimal` of the ultra-optimized processor reads
(`uf`, `situacao_cadastral`, `codigo_municipio`, `cnae_codes`);
`none` models an absent key. -/
structure Filters where
  uf : Option String := none
  situacao : Option String := none
  municipio : Option Int := none
  cnaes : Option (List String) := none
deriving DecidableEq, Repr

/-- One SQL predicate fragment appended by the filter compiler. -/
inductive SqlPred where
  | ufEq (u : String)
  | sitEq (n : Int)
  | sitIn (l : List Int)
  | munEq (n : Int)
  | cnaeIn (l : List String)
deriving DecidableEq, Repr

/-- Truth value of one predicate fragment on one row. -/
def evalPred (p : SqlPred) (r : Row) : Bool :=
  match p with
  | .ufEq u => r.uf == u
  | .sitEq n => r.situacao == n
  | .sitIn l => l.contains r.situacao
  | .munEq n => r.municipio == n
  | .cnaeIn l => l.contains r.cnae

/-- The filter compiler `apply_filters_minimal` (ultra-optimized variant):
its `where_conditions` list, in source order (`uf`, then
`situacao_cadastral`, then `codigo_municipio`, then `cnae_codes`).
A `situacao_cadastral` value other than `ativos`/`inaptos`/`inativos`
adds no predicate. -/
def apply_filters_minimal (f : Filters) : List SqlPred :=
  (match f.uf with
   | some u => [SqlPred.ufEq u]
   | none => []) ++
  (match f.situacao with
   | some b =>
     if b = "ativos" then [SqlPred.sitEq 2]
     else if b = "inaptos" then [SqlPred.sitEq 4]
     else if b = "inativos" then [SqlPred.sitIn [1, 3, 8]]
     else []
   | none => []) ++
  (match f.municipio with
   | some m => [SqlPred.munEq m]
   | none => []) ++
  (match f.cnaes with
   | some cs => [SqlPred.cnaeIn cs]
   | none => [])

/-- A row satisfies the conjunction of the compiled `WHERE` conditions. -/
def rowMatches (f : Filters) (r : Row) : Bool :=
  (apply_filters_minimal f).all (fun p => evalPred p r)

/-- MySQL `LPAD(s, n, '0')`: left-pad with zeros to length `n`, or keep the
leftmost `n` characters if `s` is longer. -/
def lpad (s : String) (n : Nat) : String :=
  if n ≤ s.length then ⟨s.data.take n⟩
  else ⟨List.replicate (n - s.length) '0' ++ s.data⟩

/-- The `cnpj` output column:
`CONCAT(LPAD(cnpj_part1,8,'0'), LPAD(cnpj_part2,4,'0'), LPAD(cnpj_part3,2,'0'))`. -/
def cnpjOf (r : Row) : String :=
  lpad r.part1 8 ++ (lpad r.part2 4 ++ lpad r.part3 2)

/-- Row order used by `ORDER BY est.cnpj_part1`: `a` may come before `b`. -/
def rowLe (a b : Row) : Prop := strLt b.part1 a.part1 = false

instance : DecidableRel rowLe := fun _ _ => instDecidableEqBool _ _

theorem rowLe_total (a b : Row) : rowLe a b ∨ rowLe b a := by
  by_cases h : strLt b.part1 a.part1 = true
  · exact Or.inr (listLtCh_asymm h)
  · exact Or.inl (by simpa using h)

theorem rowLe_trans (a b c : Row) (hab : rowLe a b) (hbc : rowLe b c) : rowLe a c := by
  simp only [rowLe, strLt] at *
  by_cases h : listLtCh c.part1.data a.part1.data = true
  · exact absurd (listLtCh_of_lt_of_not_lt h hab) (by simp [hbc])
  · simpa using h

instance : IsTotal Row rowLe := ⟨rowLe_total⟩

instance : IsTrans Row rowLe := ⟨rowLe_trans⟩

/-- `ORDER BY est.cnpj_part1`, modelled as a stable sort of the snapshot. -/
def sortByCnpjPart1 (l : List Row) : List Row := List.insertionSort rowLe l

/-- The `LIMIT` computed by `build_ultra_optimized_query`: the global
maximum of 200000 when the requested limit is not positive, otherwise the
requested limit capped at 200000. -/
def pyLimit (limit : Nat) : Nat :=
  if limit = 0 then 200000 else min limit 200000

/-- The cursor predicate `AND est.cnpj_part1 > '<last_cnpj>'`, added only
when a cursor is present. -/
def cursorFilter (c : Option String) (l : List Row) : List Row :=
  match c with
  | none => l
  | some s => l.filter (fun r => strLt s r.part1)

/-- Semantics of `build_ultra_optimized_query` executed against a snapshot:
`WHERE` base plus compiled filters, then the cursor predicate, then
`ORDER BY est.cnpj_part1`, then `LIMIT`.  The `offset` parameter of the
Python function is ignored by its body, faithfully to the source. -/
def build_ultra_optimized_query (db : List Row) (f : Filters) (c : Option String)
    (limit : Nat) : List Row :=
  (sortByCnpjPart1 (cursorFilter c (db.filter (fun r => rowMatches f r)))).take (pyLimit limit)

theorem filter_orderedInsert (p : Row → Bool) (a : Row) :
    ∀ l : List Row, List.Sorted rowLe l →
      List.filter p (List.orderedInsert rowLe a l) =
        if p a then List.orderedInsert rowLe a (List.filter p l) else List.filter p l := by
  intro l
  induction l with
  | nil =>
    intro _
    by_cases hpa : p a <;> simp [List.orderedInsert, List.filter, hpa]
  | cons b bs ih =>
    intro hs
    have hbs : List.Sorted rowLe bs := hs.of_cons
    have hble : ∀ x ∈ List.filter p bs, rowLe b x := by
      intro x hx
      have hx' := List.mem_of_mem_filter hx
      exact List.rel_of_sorted_cons hs x hx'
    by_cases hab : rowLe a b
    · rw [List.orderedInsert, if_pos hab]
      by_cases hpa : p a
      · by_cases hpb : p b
        · simp only [List.filter_cons, hpa, hpb, if_pos, if_true]
          rw [List.orderedInsert, if_pos hab]
        · simp only [List.filter_cons, hpa, hpb, if_true, if_false, Bool.false_eq_true,
            ite_false, ite_true]
          cases hfbs : List.filter p bs with
          | nil => simp [List.orderedInsert]
          | cons c cs =>
            rw [List.orderedInsert]
            have hbc : rowLe b c := by
              apply hble
              rw [hfbs]; exact List.mem_cons_self c cs
            rw [if_pos (rowLe_trans a b c hab hbc)]
      · by_cases hpb : p b <;>
          simp [List.filter_cons, hpa, hpb]
    · rw [List.orderedInsert, if_neg hab]
      by_cases hpa : p a
      · by_cases hpb : p b
        · simp only [List.filter_cons, hpa, hpb, ite_true]
          rw [ih hbs, if_pos hpa, List.orderedInsert, if_neg hab]
        · simp only [List.filter_cons, hpa, hpb, Bool.false_eq_true, ite_false, ite_true]
          rw [ih hbs, if_pos hpa]
      · by_cases hpb : p b
        · simp only [List.filter_cons, hpa, hpb, Bool.false_eq_true, ite_false, ite_true]
          rw [ih hbs, if_neg hpa]
        · simp only [List.filter_cons, hpa, hpb, Bool.false_eq_true, ite_false]
          rw [ih hbs, if_neg hpa]

/-- Sorting commutes with filtering (the sort is stable), so applying the
cursor predicate before `ORDER BY` equals applying it to the sorted list. -/
theorem sortByCnpjPart1_filter (p : Row → Bool) (l : List Row) :
    sortByCnpjPart1 (List.filter p l) = List.filter p (sortByCnpjPart1 l) := by
  induction l with
  | nil => rfl
  | cons x xs ih =>
    unfold sortByCnpjPart1 at *
    rw [List.insertionSort]
    rw [filter_orderedInsert p x (List.insertionSort rowLe xs) (List.sorted_insertionSort rowLe xs)]
    by_cases hpx : p x
    · simp only [List.filter_cons, hpx, ite_true, List.insertionSort]
      rw [ih]
    · simp only [List.filter_cons, hpx, Bool.false_eq_true, ite_false]
      rw [ih]

/-! ## Batch pager (ultra-optimized variant)

`run_ultra_optimized` and `run_ultra_optimized_with_offset` drive repeated
query + post-process + CSV-append cycles.  Their `while` loops are modelled
by structural recursion on a fuel argument; since every iteration that does
not stop emits at least one row and the loops stop once `processed`
reaches the target, `limit` units of fuel always suffice (proved below by
the fuel-congruence lemmas). -/

/-- `adjust_batch_size` of the ultra-optimized processor: halve (floored at
`min_batch_size`) when the batch took more than 15 seconds, grow by 1.5x
(capped at `max_batch_size`, `int()` truncation) when it took less than
5 seconds and the size is below the maximum, keep otherwise.
In `__init__`: `min_batch_size = 5000`, `max_batch_size = 15000`. -/
def adjust_batch_size (minB maxB : Nat) (t : ℚ) (cur : Nat) : Nat :=
  if 15 < t then max minB (cur / 2)
  else if t < 5 ∧ cur < maxB then min maxB (3 * cur / 2)
  else cur

/-- The in-batch shrink of `process_batch_ultra_optimized`: when the partner
lookup took more than 10 seconds, `self.batch_size` is halved (floored at
`min_batch_size`). -/
def sociosShrink (minB : Nat) (t : ℚ) (bs : Nat) : Nat :=
  if 10 < t then max minB (bs / 2) else bs

/-- The `while processed < limit` loop of `run_ultra_optimized_with_offset`:
query at the cursor with page limit `min(batch_size, limit - processed)`,
stop on an empty page, otherwise emit the page, advance the cursor to the
last row's 14-character `cnpj` value, update the batch size from the two
duration oracles, and continue. -/
def run_offset_loop (db : List Row) (f : Filters) (bt st : Nat → ℚ) (limit : Nat) :
    Nat → Nat → Nat → Option String → Nat → List Row
  | 0, _, _, _, _ => []
  | fuel + 1, processed, bn, c, bs =>
    if processed < limit then
      match build_ultra_optimized_query db f c (min bs (limit - processed)) with
      | [] => []
      | hd :: tl =>
        (hd :: tl) ++ run_offset_loop db f bt st limit fuel (processed + (hd :: tl).length)
          (bn + 1) (some (cnpjOf ((hd :: tl).getLast (List.cons_ne_nil hd tl))))
          (adjust_batch_size 5000 15000 (bt bn) (sociosShrink 5000 (st bn) bs))
    else []

/-- `run_ultra_optimized_with_offset(limit, ...)` with initial batch size
`bs0` (`self.batch_size`, 10000 in `__init__`, settable from the CLI):
the concatenation, in emission order, of all cursor-based pages. -/
def run_ultra_optimized_with_offset (db : List Row) (f : Filters) (bt st : Nat → ℚ)
    (limit bs0 : Nat) : List Row :=
  run_offset_loop db f bt st limit limit 0 1 none bs0

/-- `get_total_count_optimized`: the number of establishment rows matching
the filters, capped at the global maximum of 200000. -/
def get_total_count_optimized (db : List Row) (f : Filters) : Nat :=
  min (db.filter (fun r => rowMatches f r)).length 200000

/-- The `while processed < total_records` loop of `run_ultra_optimized`.
This entry point passes `offset=processed` to the query builder, but the
builder ignores it and no cursor is used, faithfully to the source. -/
def run_ultra_loop (db : List Row) (f : Filters) (st : Nat → ℚ) (total : Nat) :
    Nat → Nat → Nat → Nat → List Row
  | 0, _, _, _ => []
  | fuel + 1, processed, bn, bs =>
    if processed < total then
      match build_ultra_optimized_query db f none (min bs (total - processed)) with
      | [] => []
      | hd :: tl =>
        (hd :: tl) ++ run_ultra_loop db f st total fuel (processed + (hd :: tl).length)
          (bn + 1) (sociosShrink 5000 (st bn) bs)
    else []

/-- `run_ultra_optimized(limit, ...)`: the target is the matching count
capped at 200000, further capped at the requested limit when positive. -/
def run_ultra_optimized (db : List Row) (f : Filters) (st : Nat → ℚ)
    (limit bs0 : Nat) : List Row :=
  run_ultra_loop db f st
    (if 0 < limit then min (get_total_count_optimized db f) limit
     else get_total_count_optimized db f)
    (if 0 < limit then min (get_total_count_optimized db f) limit
     else get_total_count_optimized db f)
    0 1 bs0

/-- The batch pager skeleton shared by `run_ultra_optimized` and
`run_optimized`, abstracted over the sequence of query results
(`fetch` maps the batch number to the rows that step returns).  The result
is the final processed count together with `none` when the loop stopped
because the target was reached, or `some bn` when step `bn` returned zero
rows (exhaustion, a normal stop). -/
def pager_loop {α : Type} (fetch : Nat → List α) (target : Nat) :
    Nat → Nat → Nat → Nat × Option Nat
  | 0, processed, _ => (processed, none)
  | fuel + 1, processed, bn =>
    if processed < target then
      match fetch bn with
      | [] => (processed, some bn)
      | hd :: tl => pager_loop fetch target fuel (processed + (hd :: tl).length) (bn + 1)
    else (processed, none)

/-- The pager run from its initial state (`processed = 0`, `batch_num = 1`)
with fuel `target`. -/
def run_pager {α : Type} (fetch : Nat → List α) (target : Nat) : Nat × Option Nat :=
  pager_loop fetch target target 0 1

theorem pager_loop_fuel_congr {α : Type} (fetch : Nat → List α) (target : Nat) :
    ∀ f1 f2 processed bn, target - processed ≤ f1 → target - processed ≤ f2 →
      pager_loop fetch target f1 processed bn = pager_loop fetch target f2 processed bn := by
  intro f1
  induction f1 with
  | zero =>
    intro f2 processed bn h1 _
    cases f2 with
    | zero => rfl
    | succ f2 =>
      simp only [pager_loop]
      rw [if_neg (by omega)]
  | succ f1 ih =>
    intro f2 processed bn h1 h2
    cases f2 with
    | zero =>
      simp only [pager_loop]
      rw [if_neg (by omega)]
    | succ f2 =>
      simp only [pager_loop]
      by_cases hp : processed < target
      · rw [if_pos hp, if_pos hp]
        cases fetch bn with
        | nil => rfl
        | cons hd tl =>
          exact ih f2 (processed + (hd :: tl).length) (bn + 1)
            (by simp [List.length_cons]; omega) (by simp [List.length_cons]; omega)
      · rw [if_neg hp, if_neg hp]

theorem run_offset_loop_fuel_congr (db : List Row) (f : Filters) (bt st : Nat → ℚ)
    (limit : Nat) :
    ∀ f1 f2 processed bn c bs, limit - processed ≤ f1 → limit - processed ≤ f2 →
      run_offset_loop db f bt st limit f1 processed bn c bs =
        run_offset_loop db f bt st limit f2 processed bn c bs := by
  intro f1
  induction f1 with
  | zero =>
    intro f2 processed bn c bs h1 _
    cases f2 with
    | zero => rfl
    | succ f2 =>
      simp only [run_offset_loop]
      rw [if_neg (by omega)]
  | succ f1 ih =>
    intro f2 processed bn c bs h1 h2
    cases f2 with
    | zero =>
      simp only [run_offset_loop]
      rw [if_neg (by omega)]
    | succ f2 =>
      simp only [run_offset_loop]
      by_cases hp : processed < limit
      · rw [if_pos hp, if_pos hp]
        cases build_ultra_optimized_query db f c (min bs (limit - processed)) with
        | nil => rfl
        | cons hd tl =>
          exact congrArg (fun x => (hd :: tl) ++ x)
            (ih f2 (processed + (hd :: tl).length) (bn + 1) _ _
              (by simp only [List.length_cons]; omega)
              (by simp only [List.length_cons]; omega))
      · rw [if_neg hp, if_neg hp]

theorem run_ultra_loop_fuel_congr (db : List Row) (f : Filters) (st : Nat → ℚ)
    (total : Nat) :
    ∀ f1 f2 processed bn bs, total - processed ≤ f1 → total - processed ≤ f2 →
      run_ultra_loop db f st total f1 processed bn bs =
        run_ultra_loop db f st total f2 processed bn bs := by
  intro f1
  induction f1 with
  | zero =>
    intro f2 processed bn bs h1 _
    cases f2 with
    | zero => rfl
    | succ f2 =>
      simp only [run_ultra_loop]
      rw [if_neg (by omega)]
  | succ f1 ih =>
    intro f2 processed bn bs h1 h2
    cases f2 with
    | zero =>
      simp only [run_ultra_loop]
      rw [if_neg (by omega)]
    | succ f2 =>
      simp only [run_ultra_loop]
      by_cases hp : processed < total
      · rw [if_pos hp, if_pos hp]
        cases build_ultra_optimized_query db f none (min bs (total - processed)) with
        | nil => rfl
        | cons hd tl =>
          exact congrArg (fun x => (hd :: tl) ++ x)
            (ih f2 (processed + (hd :: tl).length) (bn + 1) _
              (by simp only [List.length_cons]; omega)
              (by simp only [List.length_cons]; omega))
      · rw [if_neg hp, if_neg hp]

theorem batch_update_bounds (t1 t2 : ℚ) (bs : Nat) (h1 : 1 ≤ bs) (h2 : bs ≤ 200000) :
    1 ≤ adjust_batch_size 5000 15000 t2 (sociosShrink 5000 t1 bs) ∧
      adjust_batch_size 5000 15000 t2 (sociosShrink 5000 t1 bs) ≤ 200000 := by
  unfold adjust_batch_size sociosShrink
  split_ifs <;> constructor <;> omega

theorem sociosShrink_one_le (t : ℚ) (bs : Nat) (h : 1 ≤ bs) :
    1 ≤ sociosShrink 5000 t bs := by
  unfold sociosShrink
  split_ifs <;> omega

theorem pyLimit_le {m : Nat} (h : 1 ≤ m) : pyLimit m ≤ m := by
  unfold pyLimit
  rw [if_neg (by omega)]
  exact min_le_left m 200000

theorem build_query_length_le (db : List Row) (f : Filters) (c : Option String)
    (m : Nat) : (build_ultra_optimized_query db f c m).length ≤ pyLimit m := by
  unfold build_ultra_optimized_query
  rw [List.length_take]
  exact min_le_left _ _

theorem run_offset_loop_length_le (db : List Row) (f : Filters) (bt st : Nat → ℚ)
    (limit : Nat) :
    ∀ fuel processed bn c bs, 1 ≤ bs →
      (run_offset_loop db f bt st limit fuel processed bn c bs).length ≤ limit - processed := by
  intro fuel
  induction fuel with
  | zero => intro processed bn c bs _; simp [run_offset_loop]
  | succ fuel ih =>
    intro processed bn c bs hbs
    simp only [run_offset_loop]
    by_cases hp : processed < limit
    · rw [if_pos hp]
      have hm : 1 ≤ min bs (limit - processed) := by omega
      cases hpage : build_ultra_optimized_query db f c (min bs (limit - processed)) with
      | nil => simp
      | cons hd tl =>
        have hlen : (hd :: tl).length ≤ min bs (limit - processed) := by
          have := build_query_length_le db f c (min bs (limit - processed))
          rw [hpage] at this
          exact le_trans this (pyLimit_le hm)
        have hbs' : 1 ≤ adjust_batch_size 5000 15000 (bt bn) (sociosShrink 5000 (st bn) bs) := by
          unfold adjust_batch_size sociosShrink
          split_ifs <;> omega
        have hrest := ih (processed + (hd :: tl).length) (bn + 1)
          (some (cnpjOf ((hd :: tl).getLast (List.cons_ne_nil hd tl))))
          (adjust_batch_size 5000 15000 (bt bn) (sociosShrink 5000 (st bn) bs)) hbs'
        rw [List.length_append]
        omega
    · rw [if_neg hp]; simp

theorem run_ultra_loop_length_le (db : List Row) (f : Filters) (st : Nat → ℚ)
    (total : Nat) :
    ∀ fuel processed bn bs, 1 ≤ bs →
      (run_ultra_loop db f st total fuel processed bn bs).length ≤ total - processed := by
  intro fuel
  induction fuel with
  | zero => intro processed bn bs _; simp [run_ultra_loop]
  | succ fuel ih =>
    intro processed bn bs hbs
    simp only [run_ultra_loop]
    by_cases hp : processed < total
    · rw [if_pos hp]
      have hm : 1 ≤ min bs (total - processed) := by omega
      cases hpage : build_ultra_optimized_query db f none (min bs (total - processed)) with
      | nil => simp
      | cons hd tl =>
        have hlen : (hd :: tl).length ≤ min bs (total - processed) := by
          have := build_query_length_le db f none (min bs (total - processed))
          rw [hpage] at this
          exact le_trans this (pyLimit_le hm)
        have hrest := ih (processed + (hd :: tl).length) (bn + 1)
          (sociosShrink 5000 (st bn) bs) (sociosShrink_one_le (st bn) bs hbs)
        rw [List.length_append]
        omega
    · rw [if_neg hp]; simp

/-- Strict version of the row order. -/
def rowLt (a b : Row) : Prop := strLt a.part1 b.part1 = true

theorem lpad_length (s : String) (n : Nat) : (lpad s n).length = n := by
  unfold lpad
  split_ifs with h
  · show (s.data.take n).length = n
    rw [List.length_take]
    have : s.data.length = s.length := rfl
    omega
  · show (List.replicate (n - s.length) '0' ++ s.data).length = n
    rw [List.length_append, List.length_replicate]
    have : s.data.length = s.length := rfl
    omega

theorem lpad_of_length_eq {s : String} {n : Nat} (h : s.length = n) : lpad s n = s := by
  unfold lpad
  rw [if_pos (le_of_eq h.symm)]
  apply String.ext
  show s.data.take n = s.data
  apply List.take_of_length_le
  show s.data.length ≤ n
  exact le_of_eq h

theorem strLt_cnpjOf (q r : Row) (hq : q.part1.length = 8) (hr : r.part1.length = 8) :
    strLt (cnpjOf q) r.part1 = strLt q.part1 r.part1 := by
  unfold cnpjOf
  rw [lpad_of_length_eq hq]
  show listLtCh (q.part1 ++ (lpad q.part2 4 ++ lpad q.part3 2)).data r.part1.data = _
  rw [String.data_append]
  apply listLtCh_append_left
  · show r.part1.data.length = q.part1.data.length
    have h1 : r.part1.data.length = r.part1.length := rfl
    have h2 : q.part1.data.length = q.part1.length := rfl
    omega
  · intro hnil
    have h6 : (lpad q.part2 4 ++ lpad q.part3 2).length = 6 := by
      rw [String.length_append, lpad_length, lpad_length]
    have h0 : (lpad q.part2 4 ++ lpad q.part3 2).length = 0 := by
      show (lpad q.part2 4 ++ lpad q.part3 2).data.length = 0
      rw [hnil]
      rfl
    omega

theorem cursor_filter_split (l₁ l₂ : List Row) (q : Row)
    (hsort : List.Pairwise rowLt (l₁ ++ q :: l₂))
    (hlen : ∀ r ∈ l₁ ++ q :: l₂, r.part1.length = 8) :
    List.filter (fun r => strLt (cnpjOf q) r.part1) (l₁ ++ q :: l₂) = l₂ := by
  have hq8 : q.part1.length = 8 := hlen q (by simp)
  rw [List.pairwise_append] at hsort
  obtain ⟨_, h2, h12⟩ := hsort
  rw [List.filter_append]
  have hl1 : List.filter (fun r => strLt (cnpjOf q) r.part1) l₁ = [] := by
    rw [List.filter_eq_nil_iff]
    intro a ha
    have ha8 : a.part1.length = 8 := hlen a (by simp [ha])
    have hlt : rowLt a q := h12 a ha q (by simp)
    simp only [strLt_cnpjOf q a hq8 ha8]
    have := listLtCh_asymm hlt
    simp [strLt] at this ⊢
    exact this
  have hcons : List.filter (fun r => strLt (cnpjOf q) r.part1) (q :: l₂) = l₂ := by
    rw [List.filter_cons]
    have hqq : strLt (cnpjOf q) q.part1 = false := by
      rw [strLt_cnpjOf q q hq8 hq8]
      exact listLtCh_irrefl _
    simp only [hqq, Bool.false_eq_true, if_false]
    rw [List.filter_eq_self]
    intro b hb
    have hb8 : b.part1.length = 8 := hlen b (by simp [hb])
    rw [strLt_cnpjOf q b hq8 hb8]
    exact List.rel_of_pairwise_cons h2 hb
  rw [hl1, hcons, List.nil_append]

theorem pyLimit_eq_self {m : Nat} (h1 : 1 ≤ m) (h2 : m ≤ 200000) : pyLimit m = m := by
  unfold pyLimit
  rw [if_neg (by omega)]
  omega

theorem build_query_eq (db : List Row) (f : Filters) (c : Option String) (m : Nat) :
    build_ultra_optimized_query db f c m =
      (cursorFilter c (sortByCnpjPart1 (db.filter (fun r => rowMatches f r)))).take (pyLimit m) := by
  cases c with
  | none => rfl
  | some s =>
    simp only [build_ultra_optimized_query, cursorFilter]
    rw [sortByCnpjPart1_filter]

theorem take_append_drop_take {A : Type} (X : List A) (m t : Nat) (hmt : m ≤ t) :
    X.take m ++ (X.drop ((X.take m).length)).take (t - (X.take m).length) = X.take t := by
  by_cases hx : X.length ≤ m
  · rw [List.take_of_length_le hx]
    rw [List.drop_eq_nil_of_le (le_refl X.length), List.take_nil, List.append_nil]
    exact (List.take_of_length_le (le_trans hx hmt)).symm
  · push_neg at hx
    have hlen : (X.take m).length = m := by
      rw [List.length_take]
      omega
    rw [hlen]
    have ht : m + (t - m) = t := by omega
    conv_rhs => rw [← ht]
    rw [List.take_add]

theorem run_offset_loop_spec (db : List Row) (f : Filters) (bt st : Nat → ℚ) (limit : Nat)
    (R : List Row)
    (hR : sortByCnpjPart1 (db.filter (fun r => rowMatches f r)) = R)
    (hsort : List.Pairwise rowLt R)
    (hlen : ∀ r ∈ R, r.part1.length = 8) :
    ∀ fuel k processed bn c bs,
      limit - processed ≤ fuel → 1 ≤ bs → bs ≤ 200000 →
      cursorFilter c R = List.drop k R →
      run_offset_loop db f bt st limit fuel processed bn c bs =
        (List.drop k R).take (limit - processed) := by
  intro fuel
  induction fuel with
  | zero =>
    intro k processed bn c bs hfuel _ _ _
    have h0 : limit - processed = 0 := by omega
    rw [h0]
    simp [run_offset_loop]
  | succ fuel ih =>
    intro k processed bn c bs hfuel hbs1 hbs2 hc
    simp only [run_offset_loop]
    by_cases hp : processed < limit
    case neg =>
      rw [if_neg hp]
      have h0 : limit - processed = 0 := by omega
      rw [h0, List.take_zero]
    case pos =>
      rw [if_pos hp]
      have hm1 : 1 ≤ min bs (limit - processed) := by omega
      have hm2 : min bs (limit - processed) ≤ 200000 := by omega
      have hmt : min bs (limit - processed) ≤ limit - processed := by omega
      have hpage : build_ultra_optimized_query db f c (min bs (limit - processed)) =
          (List.drop k R).take (min bs (limit - processed)) := by
        rw [build_query_eq, hR, hc, pyLimit_eq_self hm1 hm2]
      cases hpage2 : build_ultra_optimized_query db f c (min bs (limit - processed)) with
      | nil =>
        rw [hpage2] at hpage
        have hdrop : List.drop k R = [] := by
          rcases (List.take_eq_nil_iff).mp hpage.symm with h | h
          · omega
          · exact h
        rw [hdrop, List.take_nil]
      | cons hd tl =>
        rw [hpage2] at hpage
        have hL := congrArg List.length hpage
        rw [List.length_take] at hL
        have hL1 : 1 ≤ (hd :: tl).length := by simp
        have hpageL : List.take ((hd :: tl).length) (List.drop k R) = hd :: tl := by
          rw [show List.take ((hd :: tl).length) (List.drop k R) =
              List.take (min bs (limit - processed)) (List.drop k R) from by
            rw [List.take_eq_take]
            simp only [List.length_cons] at hL ⊢
            omega]
          exact hpage.symm
        have happne : List.take k R ++ hd :: tl ≠ [] := by simp
        have hql : (List.take k R ++ hd :: tl).getLast happne =
            (hd :: tl).getLast (List.cons_ne_nil hd tl) := by
          have h1 := List.getLast?_eq_getLast (List.take k R ++ hd :: tl) happne
          rw [List.getLast?_append,
            List.getLast?_eq_getLast (hd :: tl) (List.cons_ne_nil hd tl)] at h1
          exact (Option.some_injective _ h1).symm
        have htake : List.take (k + (hd :: tl).length) R = List.take k R ++ hd :: tl := by
          rw [List.take_add, hpageL]
        have hsplit : R = (List.take k R ++ hd :: tl).dropLast ++
            (hd :: tl).getLast (List.cons_ne_nil hd tl) ::
              List.drop (k + (hd :: tl).length) R := by
          conv_lhs => rw [← List.take_append_drop (k + (hd :: tl).length) R]
          rw [htake]
          conv_lhs => rw [← List.dropLast_append_getLast happne]
          rw [hql, List.append_assoc, List.singleton_append]
        have hcursor : cursorFilter
            (some (cnpjOf ((hd :: tl).getLast (List.cons_ne_nil hd tl)))) R =
            List.drop (k + (hd :: tl).length) R := by
          show List.filter _ R = _
          conv_lhs => rw [hsplit]
          rw [cursor_filter_split _ _ _ (hsplit ▸ hsort)
            (fun r hr => hlen r (by rw [hsplit]; exact hr))]
        have hbounds := batch_update_bounds (st bn) (bt bn) bs hbs1 hbs2
        have hIH := ih (k + (hd :: tl).length) (processed + (hd :: tl).length) (bn + 1)
          (some (cnpjOf ((hd :: tl).getLast (List.cons_ne_nil hd tl))))
          (adjust_batch_size 5000 15000 (bt bn) (sociosShrink 5000 (st bn) bs))
          (by simp only [List.length_cons]; omega) hbounds.1 hbounds.2 hcursor
        dsimp only
        rw [hIH]
        rw [show limit - (processed + (hd :: tl).length) =
            (limit - processed) - (hd :: tl).length from by omega]
        rw [← List.drop_drop]
        rw [hpage]
        exact take_append_drop_take (List.drop k R) (min bs (limit - processed))
          (limit - processed) hmt

theorem run_with_offset_eq_unpaginated (db : List Row) (f : Filters) (bt st : Nat → ℚ)
    (limit bs0 : Nat)
    (hlen8 : ∀ r ∈ db, r.part1.length = 8)
    (hnd : List.Pairwise (fun a b : Row => a.part1 ≠ b.part1) db)
    (hbs1 : 1 ≤ bs0) (hbs2 : bs0 ≤ 200000) (hl1 : 1 ≤ limit) (hl2 : limit ≤ 200000) :
    run_ultra_optimized_with_offset db f bt st limit bs0 =
      build_ultra_optimized_query db f none limit := by
  set R := sortByCnpjPart1 (db.filter (fun r => rowMatches f r)) with hRdef
  have hperm : List.Perm R (db.filter (fun r => rowMatches f r)) :=
    List.perm_insertionSort rowLe _
  have hlenR : ∀ r ∈ R, r.part1.length = 8 := by
    intro r hr
    exact hlen8 r (List.mem_filter.mp (hperm.mem_iff.mp hr)).1
  have hsorted : List.Sorted rowLe R := List.sorted_insertionSort rowLe _
  have hndR : List.Pairwise (fun a b : Row => a.part1 ≠ b.part1) R := by
    have h1 : List.Pairwise (fun a b : Row => a.part1 ≠ b.part1)
        (db.filter (fun r => rowMatches f r)) := hnd.filter _
    exact (List.Perm.pairwise_iff (fun h => Ne.symm h) hperm).mpr h1
  have hsort : List.Pairwise rowLt R := by
    apply List.Pairwise.imp ?himp (List.Pairwise.and hsorted hndR)
    intro a b hab
    obtain ⟨hle, hne⟩ := hab
    unfold rowLe at hle
    unfold rowLt
    by_cases h : strLt a.part1 b.part1 = true
    · exact h
    · exfalso
      have heq : a.part1.data = b.part1.data :=
        listLtCh_eq_of_not_lt (by simpa [strLt] using h) (by simpa [strLt] using hle)
      exact hne (String.ext heq)
  have hmain := run_offset_loop_spec db f bt st limit R rfl hsort hlenR
    limit 0 0 1 none bs0 (by omega) hbs1 hbs2 (by simp [cursorFilter])
  unfold run_ultra_optimized_with_offset
  rw [hmain, List.drop_zero, Nat.sub_zero, build_query_eq,
    pyLimit_eq_self hl1 hl2]
  rfl

/-! ## A synthetic snapshot with 200001 distinct roots

Used to express runs whose row count exceeds the global cap: the rows are
already sorted, with pairwise distinct 8-digit `cnpj_part1` values. -/

/-- The decimal digit character for `d` (digits above 9 do not occur in use). -/
def digitChar10 (d : Nat) : Char :=
  match d with
  | 0 => '0' | 1 => '1' | 2 => '2' | 3 => '3' | 4 => '4'
  | 5 => '5' | 6 => '6' | 7 => '7' | 8 => '8' | _ => '9'

theorem digitChar10_mono : ∀ a, a < 10 → ∀ b, b < 10 → a < b → digitChar10 a < digitChar10 b := by
  decide

/-- The `n`-digit zero-padded decimal encoding of `i` (most significant
digit first); faithful for `i < 10 ^ n`. -/
def encDigits : Nat → Nat → List Char
  | 0, _ => []
  | n + 1, i => digitChar10 (i / 10 ^ n) :: encDigits n (i % 10 ^ n)

theorem encDigits_length (n : Nat) : ∀ i, (encDigits n i).length = n := by
  induction n with
  | zero => intro i; rfl
  | succ n ih => intro i; simp [encDigits, ih]

theorem encDigits_mono : ∀ n i j, i < j → j < 10 ^ n →
    listLtCh (encDigits n i) (encDigits n j) = true := by
  intro n
  induction n with
  | zero =>
    intro i j hij hj
    simp at hj
    omega
  | succ n ih =>
    intro i j hij hj
    have hpow : 0 < 10 ^ n := pow_pos (by norm_num) n
    have hjd : j / 10 ^ n < 10 := by
      apply Nat.div_lt_of_lt_mul
      calc j < 10 ^ (n + 1) := hj
        _ = 10 ^ n * 10 := by ring
    have hid : i / 10 ^ n ≤ j / 10 ^ n := Nat.div_le_div_right (le_of_lt hij)
    rcases lt_or_eq_of_le hid with hlt | heq
    · simp only [encDigits, listLtCh]
      rw [if_pos (digitChar10_mono _ (by omega) _ hjd hlt)]
    · simp only [encDigits, listLtCh, heq]
      rw [if_neg (lt_irrefl _), if_neg (lt_irrefl _)]
      have hi := Nat.div_add_mod i (10 ^ n)
      have hjm := Nat.div_add_mod j (10 ^ n)
      rw [← heq] at hjm
      exact ih (i % 10 ^ n) (j % 10 ^ n) (by omega) (Nat.mod_lt _ hpow)

/-- Row number `i` of the synthetic snapshot: root `i` zero-padded to
8 digits, one establishment per root. -/
def capRow (i : Nat) : Row :=
  { part1 := ⟨encDigits 8 i⟩, part2 := "0001", part3 := "00",
    uf := "SP", situacao := 2, municipio := 0, cnae := "0000000" }

/-- A fixed snapshot with 200001 establishments, all matching, sorted by
root, pairwise distinct roots. -/
def dbCap : List Row := (List.range 200001).map capRow

/-- The empty filter configuration (no keys present). -/
def noFilters : Filters := {}

theorem capRow_part1_length (i : Nat) : (capRow i).part1.length = 8 :=
  encDigits_length 8 i

theorem dbCap_pairwise : List.Pairwise rowLt dbCap := by
  unfold dbCap
  rw [List.pairwise_map]
  apply List.Pairwise.imp_of_mem ?_ (List.pairwise_lt_range 200001)
  intro a b _ hb hab
  have hb' : b < 200001 := List.mem_range.mp hb
  show strLt (capRow a).part1 (capRow b).part1 = true
  exact encDigits_mono 8 a b hab (by norm_num at hb' ⊢; omega)

theorem dbCap_len8 : ∀ r ∈ dbCap, r.part1.length = 8 := by
  intro r hr
  obtain ⟨i, _, rfl⟩ := List.mem_map.mp hr
  exact capRow_part1_length i

theorem rowMatches_noFilters (r : Row) : rowMatches noFilters r = true := rfl

theorem dbCap_filter : dbCap.filter (fun r => rowMatches noFilters r) = dbCap :=
  List.filter_eq_self.mpr (fun _ _ => rfl)

theorem dbCap_sorted : sortByCnpjPart1 dbCap = dbCap := by
  apply List.Sorted.insertionSort_eq
  apply List.Pairwise.imp ?_ dbCap_pairwise
  intro a b hab
  exact listLtCh_asymm hab

theorem dbCap_length : dbCap.length = 200001 := by
  simp [dbCap]

/-- On the synthetic snapshot, a cursor run with requested limit 200001 and
the default initial batch size emits all 200001 rows. -/
theorem run_cap_exceeded :
    run_ultra_optimized_with_offset dbCap noFilters (fun _ => 10) (fun _ => 0)
      200001 10000 = dbCap := by
  have hspec := run_offset_loop_spec dbCap noFilters (fun _ => 10) (fun _ => 0) 200001 dbCap
    (by rw [dbCap_filter, dbCap_sorted]) dbCap_pairwise dbCap_len8
    200001 0 0 1 none 10000 (by omega) (by omega) (by omega) (by simp [cursorFilter])
  unfold run_ultra_optimized_with_offset
  rw [hspec, List.drop_zero, Nat.sub_zero]
  apply List.take_of_length_le
  rw [dbCap_length]

/-! ## Concrete snapshots for the pagination claims -/

/-- Two establishments of the same company (same 8-digit root, different
order suffix). -/
def rowA : Row :=
  { part1 := "00000000", part2 := "0001", part3 := "00",
    uf := "SP", situacao := 2, municipio := 1, cnae := "1234567" }

def rowB : Row :=
  { part1 := "00000000", part2 := "0002", part3 := "00",
    uf := "SP", situacao := 2, municipio := 1, cnae := "1234567" }

/-- A snapshot in which two rows share one root identifier. -/
def dbDup : List Row := [rowA, rowB]

/-- A row with a root distinct from `rowA`'s root. -/
def rowC : Row :=
  { part1 := "00000001", part2 := "0001", part3 := "00",
    uf := "RJ", situacao := 4, municipio := 2, cnae := "7654321" }

/-- A snapshot with pairwise distinct root identifiers. -/
def dbDistinct : List Row := [rowA, rowC]

/-- C1, counterexample.  On a fixed snapshot holding two establishments of
the same company (`rowA`, `rowB` share root `00000000`), a cursor run with
batch size 1 and requested limit 2 emits only `[rowA]`: after the first
page the cursor is the 14-character cnpj `00000000000100`, and the
predicate `est.cnpj_part1 > '00000000000100'` excludes `rowB` (its root
`00000000` is a strict prefix of the cursor).  The unpaginated query with
the same filters and ordering returns `[rowA, rowB]`, so the composite key
of `rowB` is missing from the concatenated pages, refuting the claimed
equivalence. -/
theorem C1_counterexample :
    run_ultra_optimized_with_offset dbDup noFilters (fun _ => 10) (fun _ => 10) 2 1 = [rowA] ∧
    build_ultra_optimized_query dbDup noFilters none 2 = [rowA, rowB] := by
  constructor <;> decide

/-- C1, amended.  For every filter configuration and every fixed snapshot
whose rows have 8-character roots with no two rows sharing a root
(`cnpj_part1` is unique, as when each company has one establishment), for
every positive requested limit at most the global cap 200000 and every
initial batch size in [1, 200000], concatenating all cursor-based pages
emitted by `run_ultra_optimized_with_offset` (in emission order) equals the
one unpaginated query with the same filters and ordering — same rows, same
order, no duplicate and no missing composite key.  As stated the claim is
false: when two rows share a root, every row whose root equals the cursor
root at a page boundary is skipped (see `C1_counterexample`). -/
theorem C1_pagination_equivalence_amended (db : List Row) (f : Filters)
    (bt st : Nat → ℚ) (limit bs0 : Nat)
    (hlen8 : ∀ r ∈ db, r.part1.length = 8)
    (hnd : List.Pairwise (fun a b : Row => a.part1 ≠ b.part1) db)
    (hbs1 : 1 ≤ bs0) (hbs2 : bs0 ≤ 200000)
    (hl1 : 1 ≤ limit) (hl2 : limit ≤ 200000) :
    run_ultra_optimized_with_offset db f bt st limit bs0 =
      build_ultra_optimized_query db f none limit :=
  run_with_offset_eq_unpaginated db f bt st limit bs0 hlen8 hnd hbs1 hbs2 hl1 hl2

/-- Witness for `C1_pagination_equivalence_amended` at a concrete snapshot
with distinct roots. -/
theorem C1_pagination_equivalence_amended_witness :
    run_ultra_optimized_with_offset dbDistinct noFilters (fun _ => 10) (fun _ => 10) 2 1 =
      build_ultra_optimized_query dbDistinct noFilters none 2 :=
  C1_pagination_equivalence_amended dbDistinct noFilters (fun _ => 10) (fun _ => 10) 2 1
    (by decide) (by decide) (by decide) (by decide) (by decide) (by decide)

/-- C2, counterexample.  `run_ultra_optimized_with_offset` loops on
`processed < limit` and never applies the global 200000 cap (the cap only
bounds each single page's `LIMIT`): on a snapshot with 200001 matching
rows, a run with requested limit 200001, no filters and the default
initial batch size 10000 emits 200001 rows, exceeding the hard cap. -/
theorem C2_counterexample :
    200000 <
      (run_ultra_optimized_with_offset dbCap noFilters (fun _ => 10) (fun _ => 0)
        200001 10000).length := by
  rw [run_cap_exceeded, dbCap_length]
  norm_num

/-- C2, amended.  For every snapshot, filter configuration, duration
oracles, requested limit and positive initial batch size:
`run_ultra_optimized` never emits more than the global hard cap of 200000
rows (its target is the matching count capped at 200000), while
`run_ultra_optimized_with_offset` is only bounded by the requested limit —
it exceeds 200000 emitted rows whenever the limit and the snapshot do
(see `C2_counterexample`). -/
theorem C2_global_cap_amended (db : List Row) (f : Filters) (bt st : Nat → ℚ)
    (limit bs0 : Nat) (hbs : 1 ≤ bs0) :
    (run_ultra_optimized db f st limit bs0).length ≤ 200000 ∧
    (run_ultra_optimized_with_offset db f bt st limit bs0).length ≤ limit := by
  constructor
  · unfold run_ultra_optimized
    have h := run_ultra_loop_length_le db f st
      (if 0 < limit then min (get_total_count_optimized db f) limit
       else get_total_count_optimized db f)
      (if 0 < limit then min (get_total_count_optimized db f) limit
       else get_total_count_optimized db f)
      0 1 bs0 hbs
    have hT : (if 0 < limit then min (get_total_count_optimized db f) limit
        else get_total_count_optimized db f) ≤ 200000 := by
      unfold get_total_count_optimized
      split_ifs <;> omega
    omega
  · have h := run_offset_loop_length_le db f bt st limit limit 0 1 none bs0 hbs
    simpa using h

/-- Witness for `C2_global_cap_amended` at a concrete snapshot. -/
theorem C2_global_cap_amended_witness :
    (run_ultra_optimized dbDup noFilters (fun _ => 0) 1 1).length ≤ 200000 ∧
    (run_ultra_optimized_with_offset dbDup noFilters (fun _ => 0) (fun _ => 0) 1 1).length ≤ 1 :=
  C2_global_cap_amended dbDup noFilters (fun _ => 0) (fun _ => 0) 1 1 (by decide)

/-! ## Adaptive batch sizing (claim C8) and the pager state machine (claim C9) -/

theorem pager_loop_stop {α : Type} (fetch : Nat → List α) (target : Nat) :
    ∀ fuel processed bn, target - processed ≤ fuel →
      ((pager_loop fetch target fuel processed bn).2 = none →
        target ≤ (pager_loop fetch target fuel processed bn).1) ∧
      (∀ b, (pager_loop fetch target fuel processed bn).2 = some b →
        fetch b = [] ∧ (pager_loop fetch target fuel processed bn).1 < target) := by
  intro fuel
  induction fuel with
  | zero =>
    intro processed bn hfuel
    constructor
    · intro _
      show target ≤ processed
      omega
    · intro b hb
      exact absurd hb (by simp [pager_loop])
  | succ fuel ih =>
    intro processed bn hfuel
    simp only [pager_loop]
    by_cases hp : processed < target
    · rw [if_pos hp]
      cases hf : fetch bn with
      | nil =>
        constructor
        · intro h; exact absurd h (by simp)
        · intro b hb
          simp only [Prod.snd] at hb
          have hbbn : b = bn := by
            have := hb
            simp at this
            omega
          subst hbbn
          exact ⟨hf, hp⟩
      | cons hd tl =>
        exact ih (processed + (hd :: tl).length) (bn + 1)
          (by simp only [List.length_cons]; omega)
    · rw [if_neg hp]
      constructor
      · intro _; show target ≤ processed; omega
      · intro b hb; exact absurd hb (by simp)

/-- C9: the batch pager loop (the `while processed < total_records` loop
shared by `run_ultra_optimized` and `run_optimized`, abstracted over the
sequence of query results) terminates — the fuel bound `target` is
reached-independent, i.e. any fuel of at least `target` steps gives the
already-stable result — and it stops exactly when the processed count
reaches or exceeds the target (`stop reason = none`) or when a step
returns zero rows (`stop reason = some bn`, with `fetch bn = []` and the
target not yet reached); a zero-row step is a normal stop (the loop
returns a value, it raises nothing). -/
theorem C9_pager_termination {α : Type} (fetch : Nat → List α) (target : Nat) :
    (∀ fuel, target ≤ fuel →
      pager_loop fetch target fuel 0 1 = run_pager fetch target) ∧
    ((run_pager fetch target).2 = none → target ≤ (run_pager fetch target).1) ∧
    (∀ bn, (run_pager fetch target).2 = some bn →
      fetch bn = [] ∧ (run_pager fetch target).1 < target) := by
  refine ⟨?_, ?_, ?_⟩
  · intro fuel hfuel
    exact pager_loop_fuel_congr fetch target fuel target 0 1 (by omega) (by omega)
  · exact (pager_loop_stop fetch target target 0 1 (by omega)).1
  · exact (pager_loop_stop fetch target target 0 1 (by omega)).2

/-- Witness for `C9_pager_termination`: a query-result sequence whose first
step returns zero rows stops the pager as exhaustion with the target not
reached. -/
theorem C9_pager_termination_witness :
    (fun _ : Nat => ([] : List Nat)) 1 = [] ∧
      (run_pager (fun _ : Nat => ([] : List Nat)) 5).1 < 5 :=
  (C9_pager_termination (fun _ : Nat => ([] : List Nat)) 5).2.2 1 (by decide)

/-- C8: on every step duration and every current batch size within
[`min_batch_size`, `max_batch_size`] = [5000, 15000], `adjust_batch_size`
halves the size (floored at 5000) when the duration exceeds 15 seconds,
grows it by 1.5x with `int()` truncation (capped at 15000) when the
duration is below 5 seconds and the size is below the maximum, and returns
the size unchanged otherwise; in every case the result stays within
[5000, 15000]. -/
theorem C8_adjust_batch_size (t : ℚ) (cur : Nat) (h1 : 5000 ≤ cur) (h2 : cur ≤ 15000) :
    (15 < t → adjust_batch_size 5000 15000 t cur = max 5000 (cur / 2)) ∧
    (t < 5 → cur < 15000 → adjust_batch_size 5000 15000 t cur = min 15000 (3 * cur / 2)) ∧
    (¬ 15 < t → ¬ (t < 5 ∧ cur < 15000) → adjust_batch_size 5000 15000 t cur = cur) ∧
    5000 ≤ adjust_batch_size 5000 15000 t cur ∧
    adjust_batch_size 5000 15000 t cur ≤ 15000 := by
  refine ⟨?_, ?_, ?_, ?_, ?_⟩
  · intro h
    unfold adjust_batch_size
    rw [if_pos h]
  · intro hlo hcur
    unfold adjust_batch_size
    rw [if_neg (by intro h15; linarith), if_pos ⟨hlo, hcur⟩]
  · intro hn15 hnlo
    unfold adjust_batch_size
    rw [if_neg hn15, if_neg hnlo]
  · unfold adjust_batch_size
    split_ifs <;> omega
  · unfold adjust_batch_size
    split_ifs <;> omega

/-- Witness for `C8_adjust_batch_size` at a slow batch (20 s, size 10000). -/
theorem C8_adjust_batch_size_witness :
    adjust_batch_size 5000 15000 20 10000 = max 5000 (10000 / 2) :=
  (C8_adjust_batch_size 20 10000 (by decide) (by decide)).1 (by decide)

/-! ## Row post-processing: phone classification (claim C3)

`detect_celular_ultra` (ultra variant) and `detect_celular` (optimized
variant) both test the phone column (`DDD` already in a separate column):
the number is a mobile iff it has exactly 9 characters and starts with
`'9'`; a mobile is formatted `(DDD) number`, everything else maps to the
empty string. -/

def detect_celular_ultra (telefone ddd : String) : String :=
  if telefone.length = 9 ∧ telefone.data.head? = some '9' then
    "(" ++ ddd ++ ") " ++ telefone
  else ""

def detect_celular (telefone ddd : String) : String :=
  if telefone.length = 9 then
    if telefone.data.head? = some '9' then "(" ++ ddd ++ ") " ++ telefone else ""
  else ""

/-- The spec's classification: the local-number part is exactly 9 digits
and its 9th-from-the-end digit is `9`. -/
def MobileSpec (telefone : String) : Prop :=
  telefone.length = 9 ∧ telefone.data.all Char.isDigit ∧
    telefone.data.reverse[8]? = some '9'

instance (telefone : String) : Decidable (MobileSpec telefone) := by
  unfold MobileSpec
  infer_instance

theorem head?_eq_reverse_eight {l : List Char} (h : l.length = 9) :
    l.reverse[8]? = l.head? := by
  rw [List.getElem?_reverse (by omega), List.head?_eq_getElem?]
  congr 1
  omega

/-- C3: for every phone string made of digits and every DDD string, the row
post-processor (`detect_celular_ultra`, and identically `detect_celular`)
classifies the number as mobile exactly when the local-number part is 9
digits with 9th-from-end digit `9`; a classified number is formatted as
`(DDD) number` and an unclassified one maps to the empty string. -/
theorem C3_mobile_classification (telefone ddd : String)
    (hdig : telefone.data.all Char.isDigit) :
    (MobileSpec telefone →
      detect_celular_ultra telefone ddd = "(" ++ ddd ++ ") " ++ telefone) ∧
    (¬ MobileSpec telefone → detect_celular_ultra telefone ddd = "") ∧
    detect_celular telefone ddd = detect_celular_ultra telefone ddd := by
  have hspec : MobileSpec telefone ↔
      (telefone.length = 9 ∧ telefone.data.head? = some '9') := by
    unfold MobileSpec
    constructor
    · rintro ⟨h9, _, hr⟩
      refine ⟨h9, ?_⟩
      rwa [head?_eq_reverse_eight h9] at hr
    · rintro ⟨h9, hh⟩
      exact ⟨h9, hdig, by rw [head?_eq_reverse_eight h9]; exact hh⟩
  refine ⟨?_, ?_, ?_⟩
  · intro hs
    unfold detect_celular_ultra
    rw [if_pos (hspec.mp hs)]
  · intro hs
    unfold detect_celular_ultra
    rw [if_neg (fun hc => hs (hspec.mpr hc))]
  · unfold detect_celular detect_celular_ultra
    by_cases h9 : telefone.length = 9
    · by_cases hh : telefone.data.head? = some '9'
      · rw [if_pos h9, if_pos hh, if_pos ⟨h9, hh⟩]
      · rw [if_pos h9, if_neg hh, if_neg (by intro hc; exact hh hc.2)]
    · rw [if_neg h9, if_neg (by intro hc; exact h9 hc.1)]

/-- Witness for `C3_mobile_classification`: the 9-digit number `987654321`
with DDD `11` is classified and formatted. -/
theorem C3_mobile_classification_witness :
    detect_celular_ultra "987654321" "11" = "(" ++ "11" ++ ") " ++ "987654321" :=
  (C3_mobile_classification "987654321" "11" (by decide)).1 (by decide)

/-! ## Row post-processing: registration-status labels (claim C5)

`apply_data_processing_ultra` (and `apply_data_processing` of the
optimized variant) runs
`df['situacao_cadastral'].replace({2: 'ATIVA', 4: 'INAPTA', 8: 'SUSPENSA'})`:
a cell is an integer code or (after replacement) a display string. -/

inductive CellValue where
  | int (n : Int)
  | str (s : String)
deriving DecidableEq, Repr

/-- The `replace` dictionary as a function: keys 2, 4, 8 map to their
labels, any other value is returned unchanged. -/
def translate_situacao (v : CellValue) : CellValue :=
  if v = .int 2 then .str "ATIVA"
  else if v = .int 4 then .str "INAPTA"
  else if v = .int 8 then .str "SUSPENSA"
  else v

/-- C5: the status-label translation maps 2, 4 and 8 to their display
labels, returns every other value unchanged, is total (a Lean function)
and idempotent. -/
theorem C5_situacao_translation :
    translate_situacao (.int 2) = .str "ATIVA" ∧
    translate_situacao (.int 4) = .str "INAPTA" ∧
    translate_situacao (.int 8) = .str "SUSPENSA" ∧
    (∀ v : CellValue, v ≠ .int 2 → v ≠ .int 4 → v ≠ .int 8 →
      translate_situacao v = v) ∧
    (∀ v : CellValue, translate_situacao (translate_situacao v) = translate_situacao v) := by
  refine ⟨rfl, rfl, rfl, ?_, ?_⟩
  · intro v h2 h4 h8
    unfold translate_situacao
    rw [if_neg h2, if_neg h4, if_neg h8]
  · intro v
    by_cases h2 : v = .int 2
    · subst h2; rfl
    · by_cases h4 : v = .int 4
      · subst h4; rfl
      · by_cases h8 : v = .int 8
        · subst h8; rfl
        · unfold translate_situacao
          rw [if_neg h2, if_neg h4, if_neg h8, if_neg h2, if_neg h4, if_neg h8]

/-- Witness for `C5_situacao_translation`: code 7 passes through unchanged. -/
theorem C5_situacao_translation_witness :
    translate_situacao (.int 7) = .int 7 :=
  C5_situacao_translation.2.2.2.1 (.int 7) (by decide) (by decide) (by decide)

/-! ## Filter compiler: registration-status buckets (claim C6) -/

/-- The same filter configuration with the `situacao_cadastral` key removed. -/
def without_situacao (f : Filters) : Filters := { f with situacao := none }

/-- C6: with a registration-status bucket present, the compiled filters are
the other keys' predicates plus `situacao_cadastral = 2` for `ativos`,
`situacao_cadastral = 4` for `inaptos`, `situacao_cadastral IN (1, 3, 8)`
for `inativos`; any other bucket name adds no predicate at all — the rest
of the query is unchanged.  Stated on the row semantics of the compiled
`WHERE` conjunction. -/
theorem C6_situacao_buckets (f : Filters) (r : Row) :
    (f.situacao = some "ativos" →
      rowMatches f r = (rowMatches (without_situacao f) r && (r.situacao == 2))) ∧
    (f.situacao = some "inaptos" →
      rowMatches f r = (rowMatches (without_situacao f) r && (r.situacao == 4))) ∧
    (f.situacao = some "inativos" →
      rowMatches f r =
        (rowMatches (without_situacao f) r && ([1, 3, 8] : List Int).contains r.situacao)) ∧
    (∀ b, f.situacao = some b → b ≠ "ativos" → b ≠ "inaptos" → b ≠ "inativos" →
      rowMatches f r = rowMatches (without_situacao f) r) := by
  refine ⟨?_, ?_, ?_, ?_⟩
  · intro h
    unfold rowMatches apply_filters_minimal without_situacao
    rw [h]
    simp [List.all_append, evalPred, Bool.and_assoc, Bool.and_comm, Bool.and_left_comm]
  · intro h
    unfold rowMatches apply_filters_minimal without_situacao
    rw [h]
    simp [List.all_append, evalPred, Bool.and_assoc, Bool.and_comm, Bool.and_left_comm]
  · intro h
    unfold rowMatches apply_filters_minimal without_situacao
    rw [h]
    simp [List.all_append, evalPred, Bool.and_assoc, Bool.and_comm, Bool.and_left_comm]
  · intro b h hb1 hb2 hb3
    unfold rowMatches apply_filters_minimal without_situacao
    rw [h]
    simp [hb1, hb2, hb3]

/-- Witness for `C6_situacao_buckets`: bucket `ativos` together with a
state filter compiles to the state predicate and `situacao_cadastral = 2`. -/
theorem C6_situacao_buckets_witness :
    rowMatches { uf := some "SP", situacao := some "ativos" } rowA =
      (rowMatches (without_situacao { uf := some "SP", situacao := some "ativos" }) rowA &&
        (rowA.situacao == 2)) :=
  (C6_situacao_buckets { uf := some "SP", situacao := some "ativos" } rowA).1 rfl

/-! ## Row post-processing: country-code defaulting (claim C7)

Both country caches are Python dicts keyed by `str(codigo)`:
`preload_lookup_caches` (ultra) and `get_lookup_data` (optimized) build
`{str(row[0]): row[1]}` from the country reference table.  A pandas
`.map(dict)` looks a cell up by its Python value, so an integer cell
matches only an integer key and a string cell only a string key; a cell
with no matching key becomes `NaN` (a missing label).  `CellValue` models
the Python value in a cell, and `pais_dict` the dict lookup.
The batch is abstracted to its `codigo_pais` column; each variant
produces the pair (final `codigo_pais` cell, `pais` label cell). -/

/-- `df['codigo_pais'].replace(0, 105)`. -/
def fix_codigo_pais (c : Int) : Int := if c = 0 then 105 else c

/-- Lookup in the dict `{str(codigo): pais}` built from the country
reference table, keyed by the Python value of the cell: only a string
cell equal to some `str(codigo)` matches. -/
def pais_dict (table : List (Int × String)) (k : CellValue) : Option String :=
  (table.find? (fun e => k == CellValue.str (toString e.1))).map (fun e => e.2)

/-- Ultra variant: `process_batch_ultra_optimized` first runs
`process_dataframe_ultra` (whose `apply_data_processing_ultra` replaces
code 0 by 105), then maps the preloaded `pais_cache` over
`codigo_pais.astype(str)` — the corrected code, cast to a string cell, so
the str-keyed dict can match. -/
def process_country_ultra (table : List (Int × String)) (codes : List Int) :
    List (Int × Option String) :=
  (codes.map fix_codigo_pais).map
    (fun c => (c, pais_dict table (CellValue.str (toString c))))

/-- Optimized variant: `process_batch` maps `get_lookup_data`'s str-keyed
dict over the raw integer `codigo_pais` column (no `astype(str)`), and
`apply_data_processing` (inside `process_dataframe`, called afterwards)
replaces code 0 by 105 only in the code column. -/
def process_country_optimized (table : List (Int × String)) (codes : List Int) :
    List (Int × Option String) :=
  (codes.map fix_codigo_pais).zip
    (codes.map (fun c => pais_dict table (CellValue.int c)))

/-- An integer cell never matches the str-keyed country dict. -/
theorem pais_dict_int_none (table : List (Int × String)) (n : Int) :
    pais_dict table (CellValue.int n) = none := by
  unfold pais_dict
  rw [List.find?_eq_none.mpr (fun x _ => by simp)]
  rfl

/-- C7, amended.  In the ultra-optimized variant the sentinel code 0 is
replaced by 105 before the label lookup and the column is cast with
`astype(str)` to match the str-keyed cache, so a code-0 row gets the
home-country label (whatever the reference table maps code 105 to).  In
the optimized variant the lookup runs before the replacement and maps the
str-keyed dict over the still-integer column, so the label is missing
(`none`) for every row — in particular a code-0 row ends with code 105
and a missing label, never the home-country label. -/
theorem C7_country_default_amended (table : List (Int × String)) (codes : List Int)
    (i : Nat) (h0 : codes[i]? = some 0) :
    (process_country_ultra table codes)[i]? =
      some (105, pais_dict table (CellValue.str "105")) ∧
    (∀ j : Nat, ∀ c : Int, codes[j]? = some c →
      (process_country_optimized table codes)[j]? =
        some (fix_codigo_pais c, none)) := by
  constructor
  · unfold process_country_ultra
    rw [List.map_map, List.getElem?_map, h0]
    rfl
  · intro j c hj
    unfold process_country_optimized
    rw [List.zip_map', List.getElem?_map, hj]
    simp [pais_dict_int_none]

/-- Witness for `C7_country_default_amended` on a one-row batch with the
country table holding `105 → BRASIL`. -/
theorem C7_country_default_amended_witness :
    (process_country_ultra [((105 : Int), "BRASIL")] [0])[0]? =
      some (105, pais_dict [((105 : Int), "BRASIL")] (CellValue.str "105")) ∧
    (∀ j : Nat, ∀ c : Int, ([0] : List Int)[j]? = some c →
      (process_country_optimized [((105 : Int), "BRASIL")] [0])[j]? =
        some (fix_codigo_pais c, none)) :=
  C7_country_default_amended [((105 : Int), "BRASIL")] [0] 0 (by decide)

/-- C7, counterexample.  With the country table holding `105 → BRASIL`,
the optimized variant gives a code-0 row the code 105 but a missing label
(`none`), not the home-country label: `process_batch` performs the lookup
before the sentinel is replaced, and its str-keyed dict is mapped over
the integer column, so it cannot match any code.  The ultra variant
resolves the same row to the home-country label. -/
theorem C7_counterexample :
    process_country_optimized [((105 : Int), "BRASIL")] [0] = [(105, none)] ∧
    process_country_ultra [((105 : Int), "BRASIL")] [0] = [(105, some "BRASIL")] := by
  constructor <;> decide

/-! ## Column reordering (claim C10)

`reorder_columns_ultra` works on the DataFrame's column-name list:
`list.index` (computed before any removal), `list.remove` and
`list.insert` of Python are modelled by `idxOfCol`, `removeFirst` and
`pyInsert`. -/

/-- Python `list.insert(i, x)`: insert at position `i`, append when `i`
is at least the length. -/
def pyInsert {α : Type} (i : Nat) (x : α) : List α → List α
  | [] => [x]
  | y :: ys => if i = 0 then x :: y :: ys else y :: pyInsert (i - 1) x ys

/-- Python `list.index(x)` (the call sites guard membership with `in`). -/
def idxOfCol (x : String) : List String → Nat
  | [] => 0
  | y :: ys => if y = x then 0 else idxOfCol x ys + 1

/-- Python `list.remove(x)`: drop the first occurrence. -/
def removeFirst (x : String) : List String → List String
  | [] => []
  | y :: ys => if y = x then ys else y :: removeFirst x ys

/-- `reorder_columns_ultra`: place `pais` right after `codigo_pais`,
`municipio` right after `codigo_municipio` and `cnae_codes` right before
`cnae_fiscal` (per its docstring).  Each step computes the anchor index
before removing the moved column, faithfully to the source. -/
def reorder_columns_ultra (cols : List String) : List String :=
  let cols1 :=
    if "codigo_pais" ∈ cols then
      pyInsert (idxOfCol "codigo_pais" cols + 1) "pais"
        (if "pais" ∈ cols then removeFirst "pais" cols else cols)
    else cols
  let cols2 :=
    if "codigo_municipio" ∈ cols1 then
      pyInsert (idxOfCol "codigo_municipio" cols1 + 1) "municipio"
        (if "municipio" ∈ cols1 then removeFirst "municipio" cols1 else cols1)
    else cols1
  if "cnae_fiscal" ∈ cols2 then
    pyInsert (idxOfCol "cnae_fiscal" cols2) "cnae_codes"
      (if "cnae_codes" ∈ cols2 then removeFirst "cnae_codes" cols2 else cols2)
  else cols2

/-- C10: evaluating `reorder_columns_ultra` at the column layout the
pipeline actually produces (`cnae_codes` before `cnae_fiscal`, the three
derived columns appended at the end).  The anchor index of `cnae_fiscal`
is computed before `cnae_codes` is removed, so after the removal shifts
`cnae_fiscal` one slot left, the insertion lands `cnae_codes` immediately
AFTER `cnae_fiscal` — contradicting the function's stated contract
(`cnae_codes` immediately before `cnae_fiscal`), while `pais` and
`municipio` do end up right after their anchors. -/
theorem C10_reorder_at_failing_input :
    reorder_columns_ultra
        ["cnpj", "codigo_pais", "cnae_codes", "codigo_municipio", "cnae_fiscal",
          "municipio", "pais"] =
      ["cnpj", "codigo_pais", "pais", "codigo_municipio", "municipio",
        "cnae_fiscal", "cnae_codes"] := by
  decide

/-! ## Row post-processing: email validation (claim C4)

`validate_email_ultra` (ultra and optimized variants) and the legacy
`is_valid_email` all match the same pattern
`^[a-zA-Z0-9._%+-]+@[a-zA-Z0-9.-]+\.[a-zA-Z]{2,}$` with Python `re.match`.
`$` in Python matches at the end of the string or just before one trailing
newline; `reMatchEmail` models this faithfully. -/

/-- The character class `[a-zA-Z0-9._%+-]` of the local part. -/
def isLocalChar (c : Char) : Bool :=
  c.isAlphanum || c == '.' || c == '_' || c == '%' || c == '+' || c == '-'

/-- The character class `[a-zA-Z0-9.-]` of the domain part. -/
def isDomainChar (c : Char) : Bool := c.isAlphanum || c == '.' || c == '-'

/-- Matcher for the domain section `[a-zA-Z0-9.-]+\.[a-zA-Z]{2,}`: split at
the last dot; before it a nonempty run of domain characters, after it at
least two letters. -/
def domainMatch (d : List Char) : Bool :=
  match (d.reverse).dropWhile (fun c => !(c == '.')) with
  | [] => false
  | _ :: preRev =>
    decide (preRev ≠ []) && preRev.all isDomainChar &&
      decide (2 ≤ ((d.reverse).takeWhile (fun c => !(c == '.'))).length) &&
      ((d.reverse).takeWhile (fun c => !(c == '.'))).all Char.isAlpha

/-- Matcher for the whole pattern with `$` read as strict end of input:
split at the first `@`; before it a nonempty run of local characters,
after it the domain section. -/
def emailStrict (l : List Char) : Bool :=
  match l.dropWhile (fun c => !(c == '@')) with
  | [] => false
  | _ :: d =>
    decide (l.takeWhile (fun c => !(c == '@')) ≠ []) &&
      (l.takeWhile (fun c => !(c == '@'))).all isLocalChar && domainMatch d

/-- Python `re.match` with the source pattern: a match at strict end, or a
match just before one trailing newline. -/
def reMatchEmail (l : List Char) : Bool :=
  emailStrict l ||
    (match l.getLast? with
     | some c => c == '\n' && emailStrict l.dropLast
     | none => false)

/-- `validate_email_ultra` (identical to `validate_email` of the optimized
variant): empty or non-matching input maps to the empty string, a matching
input is returned unchanged. -/
def validate_email_ultra (email : String) : String :=
  if email = "" then "" else if reMatchEmail email.data then email else ""

/-- Python `str.strip()`. -/
def pyStrip (s : String) : String :=
  ⟨((s.data.dropWhile Char.isWhitespace).reverse.dropWhile Char.isWhitespace).reverse⟩

/-- The legacy `is_valid_email` of `cnpj_processor.py`: a 1/0 flag. -/
def is_valid_email (email : String) : Nat :=
  if pyStrip email ≠ "" then (if reMatchEmail email.data then 1 else 0) else 0

/-- The claim's shape `local@domain.tld` on character lists. -/
def EmailShapeL (l : List Char) : Prop :=
  ∃ lp d t : List Char,
    l = lp ++ '@' :: (d ++ '.' :: t) ∧ lp ≠ [] ∧ lp.all isLocalChar ∧
    d ≠ [] ∧ d.all isDomainChar ∧ 2 ≤ t.length ∧ t.all Char.isAlpha

/-- The claim's shape on strings: `local@domain.tld`, local part nonempty
over `[a-zA-Z0-9._%+-]`, domain nonempty over `[a-zA-Z0-9.-]`, TLD at
least 2 letters. -/
def EmailShape (e : String) : Prop :=
  ∃ lp d t : String,
    e = lp ++ "@" ++ d ++ "." ++ t ∧ lp ≠ "" ∧ lp.data.all isLocalChar ∧
    d ≠ "" ∧ d.data.all isDomainChar ∧ 2 ≤ t.length ∧ t.data.all Char.isAlpha

/-- The shape accepted by Python's `$`: the exact shape, or the shape
followed by one trailing newline. -/
def EmailShapeNL (e : String) : Prop :=
  EmailShape e ∨ ∃ p : String, e = p ++ "\n" ∧ EmailShape p

theorem takeWhile_middle {α : Type} (p : α → Bool) (xs : List α) (y : α) (ys : List α)
    (hxs : ∀ x ∈ xs, p x = true) (hy : p y = false) :
    (xs ++ y :: ys).takeWhile p = xs ∧ (xs ++ y :: ys).dropWhile p = y :: ys := by
  induction xs with
  | nil => simp [List.takeWhile_cons, List.dropWhile_cons, hy]
  | cons a as ih =>
    have hpa : p a = true := hxs a (by simp)
    have hrec := ih (fun x hx => hxs x (by simp [hx]))
    simp [List.takeWhile_cons, List.dropWhile_cons, hpa, hrec.1, hrec.2]

theorem dropWhile_head_false {α : Type} (p : α → Bool) :
    ∀ (l : List α) (c : α) (t : List α), l.dropWhile p = c :: t → p c = false := by
  intro l
  induction l with
  | nil => intro c t h; simp at h
  | cons a as ih =>
    intro c t h
    rw [List.dropWhile_cons] at h
    by_cases hpa : p a = true
    · rw [if_pos hpa] at h
      exact ih c t h
    · rw [if_neg hpa] at h
      injection h with h1 _
      subst h1
      simpa using hpa

theorem isLocalChar_not_at {c : Char} (h : isLocalChar c = true) : (c == '@') = false := by
  cases hb : (c == '@') with
  | false => rfl
  | true =>
    have hc : c = '@' := eq_of_beq hb
    subst hc
    exact absurd h (by decide)

theorem isAlpha_not_dot {c : Char} (h : c.isAlpha = true) : (c == '.') = false := by
  cases hb : (c == '.') with
  | false => rfl
  | true =>
    have hc : c = '.' := eq_of_beq hb
    subst hc
    exact absurd h (by decide)

theorem domainMatch_iff (d : List Char) :
    domainMatch d = true ↔
      ∃ pre t : List Char, d = pre ++ '.' :: t ∧ pre ≠ [] ∧ pre.all isDomainChar ∧
        2 ≤ t.length ∧ t.all Char.isAlpha := by
  constructor
  · intro h
    unfold domainMatch at h
    cases hdw : (d.reverse).dropWhile (fun c => !(c == '.')) with
    | nil => rw [hdw] at h; simp at h
    | cons cdot preRev =>
      rw [hdw] at h
      simp only [Bool.and_eq_true, decide_eq_true_eq] at h
      obtain ⟨⟨⟨hpre, hpreall⟩, hlen⟩, halpha⟩ := h
      have hdot : (fun c => !(c == '.')) cdot = false :=
        dropWhile_head_false (fun c => !(c == '.')) d.reverse cdot preRev hdw
      have hdot' : cdot = '.' := eq_of_beq (by simpa using hdot)
      subst hdot'
      set twl := (d.reverse).takeWhile (fun c => !(c == '.')) with htwl
      have hrev : d.reverse = twl ++ '.' :: preRev := by
        conv_lhs => rw [← List.takeWhile_append_dropWhile (fun c => !(c == '.')) d.reverse]
        rw [hdw]
      refine ⟨preRev.reverse, twl.reverse, ?_, ?_, ?_, ?_, ?_⟩
      · apply List.reverse_injective
        rw [hrev]
        simp [List.reverse_append, List.reverse_cons, List.append_assoc]
      · simp only [ne_eq, List.reverse_eq_nil_iff]
        exact hpre
      · rw [List.all_reverse]
        exact hpreall
      · rw [List.length_reverse]
        exact hlen
      · rw [List.all_reverse]
        exact halpha
  · rintro ⟨pre, t, rfl, hpre, hpreall, hlen, halpha⟩
    unfold domainMatch
    have hrev : (pre ++ '.' :: t).reverse = t.reverse ++ '.' :: pre.reverse := by
      simp [List.reverse_append, List.reverse_cons, List.append_assoc]
    have htw := takeWhile_middle (fun c => !(c == '.')) t.reverse '.' pre.reverse
      (fun x hx => by
        have hxa : x.isAlpha = true := List.all_eq_true.mp halpha x (List.mem_reverse.mp hx)
        simp [isAlpha_not_dot hxa])
      (by simp)
    rw [hrev, htw.2]
    dsimp only
    rw [htw.1]
    simp [hpre, List.all_reverse, hpreall, List.length_reverse, hlen, halpha,
      List.reverse_eq_nil_iff]

theorem emailStrict_iff (l : List Char) : emailStrict l = true ↔ EmailShapeL l := by
  constructor
  · intro h
    unfold emailStrict at h
    cases hdw : l.dropWhile (fun c => !(c == '@')) with
    | nil => rw [hdw] at h; simp at h
    | cons cat d =>
      rw [hdw] at h
      simp only [Bool.and_eq_true, decide_eq_true_eq] at h
      obtain ⟨⟨hlp, hlpall⟩, hdom⟩ := h
      have hat : (fun c => !(c == '@')) cat = false :=
        dropWhile_head_false (fun c => !(c == '@')) l cat d hdw
      have hat' : cat = '@' := eq_of_beq (by simpa using hat)
      subst hat'
      set lpl := l.takeWhile (fun c => !(c == '@')) with hlpl
      have hrev : l = lpl ++ '@' :: d := by
        conv_lhs => rw [← List.takeWhile_append_dropWhile (fun c => !(c == '@')) l]
        rw [hdw]
      obtain ⟨pre, t, hd, hpre, hpreall, hlen, halpha⟩ := (domainMatch_iff d).mp hdom
      exact ⟨lpl, pre, t, by rw [hrev, hd], hlp, hlpall, hpre, hpreall, hlen, halpha⟩
  · rintro ⟨lp, d, t, rfl, hlp, hlpa, hd, hda, htl, hta⟩
    unfold emailStrict
    have htw := takeWhile_middle (fun c => !(c == '@')) lp '@' (d ++ '.' :: t)
      (fun x hx => by
        have hxl : isLocalChar x = true := List.all_eq_true.mp hlpa x hx
        simp [isLocalChar_not_at hxl])
      (by simp)
    rw [htw.2]
    dsimp only
    rw [htw.1]
    have hdm : domainMatch (d ++ '.' :: t) = true :=
      (domainMatch_iff (d ++ '.' :: t)).mpr ⟨d, t, rfl, hd, hda, htl, hta⟩
    simp [hlp, hlpa, hdm]

theorem at_data : ("@" : String).data = ['@'] := rfl

theorem dot_data : (("." : String)).data = ['.'] := rfl

theorem nl_data : ("\n" : String).data = ['\n'] := rfl

theorem emailShapeL_iff (e : String) : EmailShapeL e.data ↔ EmailShape e := by
  constructor
  · rintro ⟨lp, d, t, heq, hlp, hlpa, hd, hda, htl, hta⟩
    refine ⟨⟨lp⟩, ⟨d⟩, ⟨t⟩, ?_, ?_, hlpa, ?_, hda, htl, hta⟩
    · apply String.ext
      rw [heq]
      simp [String.data_append, at_data, dot_data]
    · intro hcon
      exact hlp (by simpa using congrArg String.data hcon)
    · intro hcon
      exact hd (by simpa using congrArg String.data hcon)
  · rintro ⟨lp, d, t, heq, hlp, hlpa, hd, hda, htl, hta⟩
    refine ⟨lp.data, d.data, t.data, ?_, ?_, hlpa, ?_, hda, htl, hta⟩
    · rw [heq]
      simp [String.data_append, at_data, dot_data]
    · intro hcon
      exact hlp (String.ext (by rw [hcon]))
    · intro hcon
      exact hd (String.ext (by rw [hcon]))

theorem reTrailingNL_iff (e : String) :
    (match e.data.getLast? with
     | some c => c == '\n' && emailStrict e.data.dropLast
     | none => false) = true ↔ ∃ p : String, e = p ++ "\n" ∧ EmailShape p := by
  cases hg : e.data.getLast? with
  | none =>
    constructor
    · intro h
      simp at h
    · rintro ⟨p, hp, _⟩
      have hdata : e.data = p.data ++ ['\n'] := by
        rw [hp]
        simp [String.data_append, nl_data]
      rw [hdata, List.getLast?_concat] at hg
      cases hg
  | some c =>
    constructor
    · intro h
      simp only [Bool.and_eq_true] at h
      obtain ⟨hc, hstrict⟩ := h
      have hcnl : c = '\n' := eq_of_beq hc
      subst hcnl
      have hne : e.data ≠ [] := by
        intro h0
        rw [h0] at hg
        cases hg
      have hlast : e.data.getLast hne = '\n' := by
        have h3 := List.getLast?_eq_getLast e.data hne
        rw [hg] at h3
        exact (Option.some_injective _ h3).symm
      have hdecomp : e.data = e.data.dropLast ++ ['\n'] := by
        conv_lhs => rw [← List.dropLast_append_getLast hne]
        rw [hlast]
      refine ⟨⟨e.data.dropLast⟩, ?_, ?_⟩
      · apply String.ext
        rw [hdecomp]
        simp [String.data_append, nl_data]
      · exact (emailShapeL_iff ⟨e.data.dropLast⟩).mp ((emailStrict_iff _).mp hstrict)
    · rintro ⟨p, hp, hshape⟩
      have hdata : e.data = p.data ++ ['\n'] := by
        rw [hp]
        simp [String.data_append, nl_data]
      have hc : c = '\n' := by
        rw [hdata, List.getLast?_concat] at hg
        exact (Option.some_injective _ hg).symm
      subst hc
      have hdl : e.data.dropLast = p.data := by
        rw [hdata, List.dropLast_concat]
      have hstrict : emailStrict e.data.dropLast = true := by
        rw [hdl]
        exact (emailStrict_iff p.data).mpr ((emailShapeL_iff p).mpr hshape)
      simp [hstrict]

theorem reMatchEmail_iff (e : String) : reMatchEmail e.data = true ↔ EmailShapeNL e := by
  unfold reMatchEmail EmailShapeNL
  rw [Bool.or_eq_true]
  exact or_congr ((emailStrict_iff e.data).trans (emailShapeL_iff e)) (reTrailingNL_iff e)

theorem pyStrip_ne_of_mem {e : String} (c : Char) (hc : c ∈ e.data)
    (hw : Char.isWhitespace c = false) : pyStrip e ≠ "" := by
  intro h
  have hdata : ((e.data.dropWhile Char.isWhitespace).reverse.dropWhile
      Char.isWhitespace).reverse = [] := by
    simpa [pyStrip] using congrArg String.data h
  rw [List.reverse_eq_nil_iff] at hdata
  have hall : ∀ x ∈ e.data.dropWhile Char.isWhitespace, Char.isWhitespace x = true := by
    have h2 := List.dropWhile_eq_nil_iff.mp hdata
    intro x hx
    exact h2 x (List.mem_reverse.mpr hx)
  have hsplit : c ∈ e.data.takeWhile Char.isWhitespace ++
      e.data.dropWhile Char.isWhitespace := by
    rw [List.takeWhile_append_dropWhile]
    exact hc
  rcases List.mem_append.mp hsplit with h1 | h1
  · exact absurd (List.mem_takeWhile_imp h1) (by simp [hw])
  · exact absurd (hall c h1) (by simp [hw])

theorem emailShapeNL_mem_at {e : String} (h : EmailShapeNL e) : '@' ∈ e.data := by
  rcases h with h | ⟨p, hp, h⟩
  · obtain ⟨lp, d, t, heq, _⟩ := h
    rw [heq]
    simp [String.data_append, at_data]
  · obtain ⟨lp, d, t, heq, _⟩ := h
    rw [hp, heq]
    simp [String.data_append, at_data]

theorem email_valid_case {e : String} (h : EmailShapeNL e) :
    validate_email_ultra e = e ∧ is_valid_email e = 1 := by
  have hm : reMatchEmail e.data = true := (reMatchEmail_iff e).mpr h
  have hat : '@' ∈ e.data := emailShapeNL_mem_at h
  have hne : e ≠ "" := by
    intro h0
    rw [h0] at hat
    exact absurd hat (by decide)
  constructor
  · unfold validate_email_ultra
    rw [if_neg hne, if_pos hm]
  · unfold is_valid_email
    rw [if_pos (pyStrip_ne_of_mem '@' hat (by decide)), if_pos hm]

theorem email_invalid_case {e : String} (h : ¬ EmailShapeNL e) :
    validate_email_ultra e = "" ∧ is_valid_email e = 0 := by
  have hm : reMatchEmail e.data = false := by
    cases hb : reMatchEmail e.data
    · rfl
    · exact absurd ((reMatchEmail_iff e).mp hb) h
  constructor
  · unfold validate_email_ultra
    by_cases h0 : e = ""
    · rw [if_pos h0]
    · rw [if_neg h0, if_neg (by simp [hm])]
  · unfold is_valid_email
    by_cases hs : pyStrip e ≠ ""
    · rw [if_pos hs, if_neg (by simp [hm])]
    · rw [if_neg hs]

/-- C4, amended.  Email validation accepts exactly the strings of shape
`local@domain.tld` (TLD at least 2 letters) — or such a string followed by
one trailing newline, because Python's `$` also matches just before a
final newline; an accepted input is returned unchanged by the non-legacy
`validate_email_ultra`, every other input (including the empty string)
maps to the empty string, and the legacy `is_valid_email` returns the
1/0 flag accordingly.  In particular a string without `@` is always
rejected. -/
theorem C4_email_validation_amended (e : String) :
    (EmailShapeNL e → validate_email_ultra e = e ∧ is_valid_email e = 1) ∧
    (¬ EmailShapeNL e → validate_email_ultra e = "" ∧ is_valid_email e = 0) ∧
    ((∀ c ∈ e.data, c ≠ '@') → validate_email_ultra e = "") := by
  refine ⟨fun h => email_valid_case h, fun h => email_invalid_case h, fun h => ?_⟩
  have hnot : ¬ EmailShapeNL e := fun hs => (h '@' (emailShapeNL_mem_at hs)) rfl
  exact (email_invalid_case hnot).1

/-- Witness for `C4_email_validation_amended` at a well-formed address. -/
theorem C4_email_validation_amended_witness :
    validate_email_ultra "user@example.com" = "user@example.com" ∧
      is_valid_email "user@example.com" = 1 :=
  (C4_email_validation_amended "user@example.com").1
    (Or.inl ⟨"user", "example", "com", by decide, by decide, by decide, by decide,
      by decide, by decide, by decide⟩)

/-- C4, counterexample.  The code accepts `"a@bc.de\n"` (Python's `$`
matches before the trailing newline) and returns it unchanged, although
the string is not of the claimed shape `local@domain.tld`: the claim's
"accepts exactly" is refuted. -/
theorem C4_counterexample :
    validate_email_ultra "a@bc.de\n" = "a@bc.de\n" ∧ ¬ EmailShape "a@bc.de\n" := by
  constructor
  · decide
  · intro h
    have hs := (emailStrict_iff ("a@bc.de\n").data).mpr ((emailShapeL_iff "a@bc.de\n").mpr h)
    exact absurd hs (by decide)
